import Mathlib

/-!
Verification development for the RouteRemotes Roblox-TS repository.

The TypeScript sources are shallowly embedded:
* the server module (`ServerNetwork`: classes `TreeNode`, `Middleware`, `Route`,
  the singleton `Network`, and the free functions `depthFirstSearch` and
  `clearRouteLogs`), and
* the client module (`ClientNetwork`: the singleton `Network` with `start`,
  `getRoute`, `FireServer`, `OnEvent`, `InvokeServer`, `Disconnect`).

Conventions of the embedding:
* in-place mutation of objects becomes explicit state passing (functions return
  the updated state);
* `throw` of a string becomes `Except.error` of that string; a function that can
  throw returns `Except String _`;
* Lua/Roblox numbers (`os.clock()` timestamps, cooldown durations) are modelled
  by the rationals `ℚ`;
* player identities (`Player.UserId`) and opaque Roblox objects
  (`RemoteEvent` instances, `RBXScriptConnection`s) are modelled by `Nat` ids;
* Lua tables keyed by strings or numbers (`{ [k]: v }`) are modelled by
  association lists with JavaScript/Lua object-update semantics (update in
  place if the key exists, append otherwise);
* middleware callback side effects are abstracted: a callback is a function
  returning `Except String Unit`, where `Except.error` models a `throw` inside
  the callback.
-/

/-! ### Association lists with object-assignment semantics -/

/-- `obj[k] = v` on a Lua/JS table modelled as an association list: replace the
first binding of `k` if present, otherwise append a new binding. -/
def aset {κ α : Type} [BEq κ] (l : List (κ × α)) (k : κ) (v : α) : List (κ × α) :=
  match l with
  | [] => [(k, v)]
  | (k1, v1) :: rest => if k1 == k then (k1, v) :: rest else (k1, v1) :: aset rest k v

/-- `delete obj[k]` on a Lua/JS table: drop every binding of `k`. -/
def adel {κ α : Type} [BEq κ] (l : List (κ × α)) (k : κ) : List (κ × α) :=
  l.filter (fun e => !(e.1 == k))

/-! ### Path strings

The server traverses `/`-separated, lower-cased path strings
(`path.lower().split("/")` in Luau).  We embed `string.lower` and
`string.split(s, "/")` as character-level functions so that their interaction
with string concatenation can be reasoned about. -/

/-- `string.lower`: lower-case every character. -/
def lowerStr (s : String) : String := ⟨s.data.map Char.toLower⟩

/-- Split a character list on `'/'`.  Always returns at least one group. -/
def splitChars : List Char → List (List Char)
  | [] => [[]]
  | c :: rest =>
    match splitChars rest with
    | [] => [[]]
    | g :: gs => if c = '/' then [] :: g :: gs else (c :: g) :: gs

/-- `string.split(s, "/")`. -/
def splitSlash (s : String) : List String :=
  (splitChars s.data).map (fun cs => ⟨cs⟩)

/-- Join path segments with `"/"` (inverse direction of `splitSlash`). -/
def joinSlash : List String → String
  | [] => ""
  | [x] => x
  | x :: xs => x ++ "/" ++ joinSlash xs

/-- A string that contains no `'/'` character. -/
def slashFree (s : String) : Prop := '/' ∉ s.data

instance (s : String) : Decidable (slashFree s) := by
  unfold slashFree; infer_instance

/-! ### Middleware (server class `Middleware`) -/

/-- One entry of `Middleware.log` (`RouteLog` in the source): the last-use
timestamp for one player. -/
abbrev RouteLog := ℚ

/-- A middleware validation callback.  The source type is
`(player: Player, ...args: unknown[]) => void`; a `throw` inside a callback is
modelled by `Except.error`. -/
abbrev Callback := Nat → List Int → Except String Unit

/-- The `Middleware` class state: per-player last-use log, the cooldown, and
the ordered callback chain. -/
structure MwObj where
  log : List (Nat × RouteLog)
  clientSideCooldown : ℚ
  middlewares : List Callback

/-- The `for (const middleware of this.middlewares) middleware(player, ...args)`
loop inside the `try`.  Returns the error of the first callback that throws (or
`none`), together with the number of callbacks that were invoked (the throwing
callback counts as invoked). -/
def runCallbacks : List Callback → Nat → List Int → Option String × Nat
  | [], _, _ => (none, 0)
  | cb :: rest, p, args =>
    match cb p args with
    | .error e => (some e, 1)
    | .ok _ =>
      let r := runCallbacks rest p args
      (r.1, r.2 + 1)

/-- Shared tail of `Middleware.execute`: run the callback chain under
`try`/`catch`; a caught error yields `false` (the error is logged, not
rethrown).  Also reports how many callbacks were invoked. -/
def finishExec (m : MwObj) (p : Nat) (args : List Int) : Bool × MwObj × Nat :=
  match runCallbacks m.middlewares p args with
  | (none, n) => (true, m, n)
  | (some _, n) => (false, m, n)

/-- `Middleware.execute(player, currentTime, ...args)`.

Returns `(result, updated middleware state, number of callbacks invoked)`.

Control flow of the source:
* no log entry for the player: record `currentTime` (the unconditional
  "update log" assignment that follows writes the same value again);
* a log entry within `clientSideCooldown` of `currentTime`: return `false`
  without touching the log and without running any callback;
* otherwise: update the log to `currentTime`, then run every callback in
  order inside `try`/`catch`; a thrown error makes the call return `false`. -/
def MwObj.execute (m : MwObj) (p : Nat) (t : ℚ) (args : List Int) : Bool × MwObj × Nat :=
  match m.log.lookup p with
  | some lastUse =>
    if t - lastUse < m.clientSideCooldown then (false, m, 0)
    else finishExec { m with log := aset m.log p t } p args
  | none => finishExec { m with log := aset m.log p t } p args

/-! ### Routes and the route tree (server classes `Route` and `TreeNode`) -/

/-- `_remoteType` in the source: `"function" | "event"`. -/
inductive RemoteType where
  | function
  | event
deriving DecidableEq

/-- The `Route` class.  `remote` models the `RemoteEvent`/`UnreliableRemoteEvent`
instance created by the constructor (an opaque id, allocated from a counter);
`middleware` is either `false` (`none`) or a reference (an id into the
middleware store) to a `Middleware` object, since middleware objects are shared
mutable state.  The `connection` field (the at-most-one-listener bookkeeping)
is not modelled: no claim depends on it. -/
structure Route where
  path : String
  name : String
  secure : Bool
  remoteType : RemoteType
  middleware : Option Nat
  remote : Nat
deriving DecidableEq

/-- The `TreeNode` class: a `Route` payload plus children keyed by endpoint
name (`{ [endPoint: string]: TreeNode }`). -/
inductive TreeNode where
  | mk (value : Route) (children : List (String × TreeNode))

/-- The `value` field of a `TreeNode`. -/
def TreeNode.value : TreeNode → Route
  | .mk v _ => v

/-- The `children` field of a `TreeNode`. -/
def TreeNode.children : TreeNode → List (String × TreeNode)
  | .mk _ cs => cs

/-- `TreeNode.getChild(name)`: `this.children[name]`. -/
def TreeNode.getChild (n : TreeNode) (name : String) : Option TreeNode :=
  n.children.lookup name

/-- `TreeNode.addChild(child)`: `this.children[child.value.name] = child`. -/
def TreeNode.addChild (n : TreeNode) (child : TreeNode) : TreeNode :=
  .mk n.value (aset n.children child.value.name child)

/-- `parent.children[key] = node` for an explicit key (used by `EditRoute`). -/
def TreeNode.setChild (n : TreeNode) (key : String) (child : TreeNode) : TreeNode :=
  .mk n.value (aset n.children key child)

mutual

/-- Number of routes (nodes) in a tree. -/
def countNodes : TreeNode → Nat
  | .mk _ cs => 1 + countList cs

/-- Number of routes in a child list. -/
def countList : List (String × TreeNode) → Nat
  | [] => 0
  | c :: rest => countNodes c.2 + countList rest

end

/-! ### The flattened table (`SimpleRouteInfo`, `depthFirstSearch`) -/

/-- `SimpleRouteInfo`: one entry of the flattened routing table shipped to
clients (`{remote, secure, remoteType, cooldown?}`).  The same interface is
declared in both the server and the client module. -/
structure SimpleRouteInfo where
  remote : Nat
  secure : Bool
  remoteType : RemoteType
  cooldown : Option ℚ
deriving DecidableEq

/-- A middleware store: the heap of live `Middleware` objects, keyed by id.
Route objects reference middleware by id because middleware state is shared
mutable state (the tree, the `record` cache and listener closures all alias
the same `Middleware` objects). -/
abbrev MwStore := List (Nat × MwObj)

/-- The `SimpleRouteInfo` built for one route by `depthFirstSearch`:
`cooldown` is present exactly when the route has a middleware
(`route.middleware instanceof Middleware`). -/
def mkInfo (store : MwStore) (r : Route) : SimpleRouteInfo :=
  { remote := r.remote
    secure := r.secure
    remoteType := r.remoteType
    cooldown :=
      match r.middleware with
      | some mid => (store.lookup mid).map (fun mw => mw.clientSideCooldown)
      | none => none }

mutual

/-- `depthFirstSearch(node, path, simplifiedTree)`: pre-order walk writing
`simplifiedTree[fullPath] = routeInfo` for every route, where
`fullPath = path === "" ? route.name : path + "/" + route.name`. -/
def depthFirstSearch (store : MwStore) (node : TreeNode) (path : String)
    (tbl : List (String × SimpleRouteInfo)) : List (String × SimpleRouteInfo) :=
  match node with
  | .mk route cs =>
    let fullPath := if path == "" then route.name else path ++ "/" ++ route.name
    dfsChildren store cs fullPath (aset tbl fullPath (mkInfo store route))

/-- The `for (const [, childNode] of pairs(node.children))` recursion of
`depthFirstSearch`, in child-list order. -/
def dfsChildren (store : MwStore) (cs : List (String × TreeNode)) (path : String)
    (tbl : List (String × SimpleRouteInfo)) : List (String × SimpleRouteInfo) :=
  match cs with
  | [] => tbl
  | c :: rest => dfsChildren store rest path (depthFirstSearch store c.2 path tbl)

end

/-! ### Path traversal (`Network.traversePath`) -/

/-- The error thrown when a path does not begin with the root segment. -/
def pathErrMsg : String := "Path must start with 'root' and have more than 1 part"

/-- The error thrown when a segment is missing and `createMissing` is false. -/
def missingErrMsg (part path : String) : String :=
  "Route '" ++ part ++ "' does not exist in '" ++ path ++ "'"

/-- The segment-walking loop of `traversePath` with `createMissing = false`:
look up each segment with `getChild` and fail on the first missing one.
Returns the node at the end of the path. -/
def goGet (node : TreeNode) (parts : List String) (path : String) : Except String TreeNode :=
  match parts with
  | [] => .ok node
  | part :: rest =>
    match node.getChild part with
    | some next => goGet next rest path
    | none => .error (missingErrMsg part path)

/-- `Network.traversePath(path)` (read-only, `createMissing = false`):
lower-case the path, split on `/`, require the first segment to be `"root"`,
short-circuit the single-segment root path, then walk the remaining segments. -/
def traverseGet (tree : TreeNode) (path : String) : Except String TreeNode :=
  let lpath := lowerStr path
  let parts := splitSlash lpath
  if parts.length < 1 || !(parts.headD "" == "root") then .error pathErrMsg
  else if parts.length == 1 && parts.headD "" == "root" then .ok tree
  else goGet tree parts.tail lpath

/-- The segment walk of `traversePath` followed by a mutation of the target
node.  The source traverses to a node and then mutates it in place through the
returned reference; the pure rendering walks the same segments and rebuilds the
spine with the mutated target (`f`).  `f` also returns an auxiliary result. -/
def goApply {α : Type} (node : TreeNode) (parts : List String) (path : String)
    (f : TreeNode → Except String (TreeNode × α)) : Except String (TreeNode × α) :=
  match parts with
  | [] => f node
  | part :: rest =>
    match node.getChild part with
    | some next =>
      match goApply next rest path f with
      | .ok (next', a) => .ok (node.setChild part next', a)
      | .error e => .error e
    | none => .error (missingErrMsg part path)

/-! ### The server registry (`Network` singleton, server side) -/

/-- A Lua table key: Lua array literals store their elements under the numeric
keys `1, 2, …`; string indexing uses string keys. -/
inductive LKey where
  | num (n : Nat)
  | str (s : String)
deriving BEq, DecidableEq

/-- The Luau compilation of the TypeScript `k in t` operator: `t[k] ~= nil`,
a key-membership test on the table. -/
def luaIn (t : List (LKey × String)) (k : LKey) : Bool :=
  t.any (fun e => e.1 == k)

/-- `RouteParam`: the argument object of `NewRoute`/`EditRoute`.  The
`middleware` field of the source is `Middleware | false`: the caller passes a
freshly constructed `Middleware` object (or `false`), so it is modelled by the
object itself (`Option MwObj`); route construction allocates it a store id. -/
structure RouteParam where
  endPoint : String
  secure : Bool
  remoteType : RemoteType
  middleware : Option MwObj

/-- The state owned by the server `Network` singleton: the route tree, the
lazily populated flat cache `record` (full path string → `Route` object), the
`unEditableRoutes` Lua array, plus the heap of middleware objects and the
allocation counters for middleware ids and remote-instance ids. -/
structure ServerState where
  tree : TreeNode
  record : List (String × Route)
  unEditableRoutes : List (LKey × String)
  mwStore : MwStore
  nextMw : Nat
  nextRemote : Nat

/-- `new Route(path, name, secure, remoteType, middleware)`: allocates the
remote instance (and stores the middleware object, when one is given, under a
fresh id).  The folder bookkeeping in `ReplicatedStorage` is not modelled. -/
def mkRoute (st : ServerState) (path name : String) (secure : Bool) (rt : RemoteType)
    (mw : Option MwObj) : ServerState × Route :=
  match mw with
  | some mwObj =>
    ({ st with
        mwStore := st.mwStore ++ [(st.nextMw, mwObj)]
        nextMw := st.nextMw + 1
        nextRemote := st.nextRemote + 1 },
     { path := path, name := name, secure := secure, remoteType := rt
       middleware := some st.nextMw, remote := st.nextRemote })
  | none =>
    ({ st with nextRemote := st.nextRemote + 1 },
     { path := path, name := name, secure := secure, remoteType := rt
       middleware := none, remote := st.nextRemote })

/-- The segment walk of `traversePath` with `createMissing = true`, followed by
a state-aware mutation `f` of the target node.  A missing segment is filled in
with a default route (`new Route(currentPath, part, true, "event", new
Middleware(1))`, where `currentPath` already includes `part`). -/
def goEnsureApply (st : ServerState) (node : TreeNode) (parts : List String)
    (currentPath : String) (f : ServerState → TreeNode → Except String (ServerState × TreeNode)) :
    Except String (ServerState × TreeNode) :=
  match parts with
  | [] => f st node
  | part :: rest =>
    let currentPath := currentPath ++ "/" ++ part
    match node.getChild part with
    | some next =>
      match goEnsureApply st next rest currentPath f with
      | .ok (st', next') => .ok (st', node.setChild part next')
      | .error e => .error e
    | none =>
      let (st1, newRoute) := mkRoute st currentPath part true .event (some ⟨[], 1, []⟩)
      match goEnsureApply st1 (.mk newRoute []) rest currentPath f with
      | .ok (st', next') => .ok (st', node.setChild part next')
      | .error e => .error e

/-- The state built by `Network.start()`:

* the default tree `root → network → get-tree` with the root-route parameters
  (`secure = true`, `"event"`, a 10-second-cooldown middleware), the network
  route (`"event"`, 5-second-cooldown middleware) and the get-tree route
  (`"function"`, 5-second-cooldown middleware);
* an empty `record` cache;
* `unEditableRoutes = ["root/network/get-tree"]`, a Lua array whose single
  element sits under the numeric key `1`.

Middleware ids 0/1/2 and remote ids 0/1/2 are allocated in construction order
(root, network, get-tree).  `start` additionally connects the `PlayerRemoving`
hook (modelled by `clearRouteLogsFor`) and the get-tree `OnInvoke` handler
(which runs `depthFirstSearch` on demand). -/
def startState : ServerState :=
  { tree :=
      .mk { path := "root", name := "root", secure := true, remoteType := .event
            middleware := some 0, remote := 0 }
        [("network",
          .mk { path := "root/", name := "network", secure := true, remoteType := .event
                middleware := some 1, remote := 1 }
            [("get-tree",
              .mk { path := "root/network", name := "get-tree", secure := true
                    remoteType := .function, middleware := some 2, remote := 2 }
                [])])]
    record := []
    unEditableRoutes := [(.num 1, "root/network/get-tree")]
    mwStore := [(0, ⟨[], 10, []⟩), (1, ⟨[], 5, []⟩), (2, ⟨[], 5, []⟩)]
    nextMw := 3
    nextRemote := 3 }

/-- `Network.getRoute(path)`: the root path returns the root route directly
(without caching); otherwise the `record` cache is consulted and, on a miss,
the path is traversed and the found route is cached under the *raw* path
string. -/
def getRoute (st : ServerState) (path : String) : Except String (ServerState × Route) :=
  if path == "root" then .ok (st, st.tree.value)
  else
    match st.record.lookup path with
    | some r => .ok (st, r)
    | none =>
      match traverseGet st.tree path with
      | .ok node => .ok ({ st with record := aset st.record path node.value }, node.value)
      | .error e => .error e

/-- `Network.NewRoute(path, routeParam)`: traverse to the parent with
`createMissing = true`, fail if a child named `endPoint` already exists, else
attach a new leaf carrying `new Route(path, endPoint, secure, remoteType,
middleware)`. -/
def NewRoute (st : ServerState) (path : String) (rp : RouteParam) : Except String ServerState :=
  let lpath := lowerStr path
  let parts := splitSlash lpath
  if parts.length < 1 || !(parts.headD "" == "root") then .error pathErrMsg
  else
    let addF : ServerState → TreeNode → Except String (ServerState × TreeNode) :=
      fun st' parent =>
        match parent.getChild rp.endPoint with
        | some _ => .error ("Route '" ++ rp.endPoint ++ "' already exists at '" ++ path ++ "'")
        | none =>
          let (st1, newRoute) := mkRoute st' path rp.endPoint rp.secure rp.remoteType rp.middleware
          .ok (st1, parent.addChild (.mk newRoute []))
    if parts.length == 1 && parts.headD "" == "root" then
      match addF st st.tree with
      | .ok (st', tree') => .ok { st' with tree := tree' }
      | .error e => .error e
    else
      match goEnsureApply st st.tree parts.tail "root" addF with
      | .ok (st', tree') => .ok { st' with tree := tree' }
      | .error e => .error e

/-- The warning printed when `EditRoute` refuses an uneditable path. -/
def editWarnMsg (path : String) : String := "You can't edit : '" ++ path ++ "' "

/-- The warning printed when `EditRoute` finds no route to edit. -/
def editMissingWarnMsg (endPoint path : String) : String :=
  "Route '" ++ endPoint ++ "' does not exist at '" ++ path ++ "'"

/-- `Network.EditRoute(path, routeParam)`.

Returns the updated state together with the warning that was printed, if any
(`warn` does not abort in Luau; a warning here always means the state is
returned unchanged).

The uneditable-set guard is the source's
`if (path.lower() in this.instance.unEditableRoutes)`, i.e. a Lua
key-membership test of the *string* `path.lower()` against the *array*
`unEditableRoutes` (whose elements live under numeric keys).  After the guard,
the parent path is traversed (`createMissing = false`, so a bad path throws);
a missing child is a warning; otherwise
`parent.children[endPoint] = new TreeNode(new Route(...), childs)` replaces
the payload while keeping the old node's children. -/
def EditRoute (st : ServerState) (path : String) (rp : RouteParam) :
    Except String (ServerState × Option String) :=
  if luaIn st.unEditableRoutes (.str (lowerStr path)) then
    .ok (st, some (editWarnMsg path))
  else
    let lpath := lowerStr path
    let parts := splitSlash lpath
    if parts.length < 1 || !(parts.headD "" == "root") then .error pathErrMsg
    else
      let editF : TreeNode → Except String (TreeNode × (ServerState × Option String)) :=
        fun parent =>
          match parent.getChild rp.endPoint with
          | none => .ok (parent, (st, some (editMissingWarnMsg rp.endPoint path)))
          | some old =>
            let (st1, newRoute) :=
              mkRoute st path rp.endPoint rp.secure rp.remoteType rp.middleware
            .ok (parent.setChild rp.endPoint (.mk newRoute old.children), (st1, none))
      if parts.length == 1 && parts.headD "" == "root" then
        match editF st.tree with
        | .ok (tree', (st', w)) => .ok ({ st' with tree := tree' }, w)
        | .error e => .error e
      else
        match goApply st.tree parts.tail lpath editF with
        | .ok (tree', (st', w)) => .ok ({ st' with tree := tree' }, w)
        | .error e => .error e

/-- One iteration of the `PlayerRemoving` hook body:
`if (value.middleware) delete value.middleware.log[player.UserId]` for one
`record` entry. -/
def clearStep (pid : Nat) (store : MwStore) (kv : String × Route) : MwStore :=
  match kv.2.middleware with
  | some mid =>
    match store.lookup mid with
    | some mw => aset store mid { mw with log := adel mw.log pid }
    | none => store
  | none => store

/-- The `PlayerRemoving` hook installed by `clearRouteLogs(record)`: for every
route in the `record` cache, `delete value.middleware.log[player.UserId]` when
the route has a middleware.  Only the middleware heap changes; routes that are
not in `record` are never touched. -/
def clearRouteLogsFor (st : ServerState) (pid : Nat) : ServerState :=
  { st with mwStore := st.record.foldl (clearStep pid) st.mwStore }

/-- The listener body installed by `Network.OnEvent`: capture the arrival
time, run the route's middleware if present (returning silently when it yields
`false`), then invoke the registered callback.  The result records the updated
server state (middleware heap) and whether the callback ran; an
`Except.error` would mean an error escaping into the event dispatcher. -/
def onEventMessage (st : ServerState) (route : Route)
    (callback : Nat → List Int → Except String Unit)
    (player : Nat) (currentTime : ℚ) (args : List Int) :
    Except String (ServerState × Bool) :=
  match route.middleware with
  | some mid =>
    match st.mwStore.lookup mid with
    | some mw =>
      let r := mw.execute player currentTime args
      let st' := { st with mwStore := aset st.mwStore mid r.2.1 }
      if r.1 then
        match callback player args with
        | .ok _ => .ok (st', true)
        | .error e => .error e
      else .ok (st', false)
    | none =>
      -- unreachable: a route's middleware id always refers to a live object
      match callback player args with
      | .ok _ => .ok (st, true)
      | .error e => .error e
  | none =>
    match callback player args with
    | .ok _ => .ok (st, true)
    | .error e => .error e

/-- The listener body installed by `Network.OnInvoke`: like `onEventMessage`,
but the callback's return value is fired back to the calling player over the
same remote (`FireClient(player, result)`), even when the result is the
undefined value (`none`).  The second component is the reply effect:
`some (player, result)` when a reply was sent. -/
def onInvokeMessage {V : Type} (st : ServerState) (route : Route)
    (callback : Nat → List Int → Except String (Option V))
    (player : Nat) (currentTime : ℚ) (args : List Int) :
    Except String (ServerState × Option (Nat × Option V)) :=
  match route.middleware with
  | some mid =>
    match st.mwStore.lookup mid with
    | some mw =>
      let r := mw.execute player currentTime args
      let st' := { st with mwStore := aset st.mwStore mid r.2.1 }
      if r.1 then
        match callback player args with
        | .ok result => .ok (st', some (player, result))
        | .error e => .error e
      else .ok (st', none)
    | none =>
      match callback player args with
      | .ok result => .ok (st, some (player, result))
      | .error e => .error e
  | none =>
    match callback player args with
    | .ok result => .ok (st, some (player, result))
    | .error e => .error e

/-! ### The client registry (`Network` singleton, client side) -/

/-- The state of the client `Network` singleton: the flattened routing table
received at bootstrap, the per-route `lastFireServer` log, and the set of
routes with an attached listener (`connections`; setting an entry to
`undefined` removes the key, so a list of connected routes suffices). -/
structure ClientNetwork where
  routingTable : List (String × SimpleRouteInfo)
  log : List (String × ℚ)
  connections : List String

/-- The not-initialized error thrown by `FireServer`, `OnEvent`,
`InvokeServer` and `Disconnect` (the source spells it `ClientNetWork`). -/
def notInitMsg : String := "ClientNetWork not initialized, please do 'Network.start()'"

/-- The fatal error thrown by the client `start` when the bootstrap invoke
returns the undefined value. -/
def bootFailMsg : String :=
  "Failed to initialize Network: 'get-tree' returned undefined. Ensure the client response is correctly set up."

/-- Client `Network.getRoute(route)`: look the route up in the routing table;
throws when the singleton is missing or the route is unknown. -/
def clientGetRoute (s : Option ClientNetwork) (route : String) : Except String SimpleRouteInfo :=
  match s with
  | none => .error "ClientNetwork not started"
  | some inst =>
    match inst.routingTable.lookup route with
    | some ri => .ok ri
    | none => .error ("Route " ++ route ++ " not found , or not charged to the client")

/-- The client-side cooldown gate shared by `FireServer` and `InvokeServer`:
`routeInfo.cooldown` must exist, the route must have a log entry, and the
entry must be within the cooldown of `currentTime` for the gate to trip. -/
def cooldownTripped (inst : ClientNetwork) (route : String) (ri : SimpleRouteInfo)
    (currentTime : ℚ) : Bool :=
  match ri.cooldown with
  | some cd =>
    match inst.log.lookup route with
    | some last => decide (currentTime - last < cd)
    | none => false
  | none => false

/-- The cooldown error thrown by `FireServer`/`InvokeServer` (the source also
interpolates the numeric cooldown, which is omitted here). -/
def cooldownMsg (route : String) : String := "Route " ++ route ++ " is on cooldown"

/-- `Network.FireServer(route, ...args)`: guard on initialization, route
existence, call kind and cooldown; fire over the remote and update the log.
Returns the updated state and the id of the remote that was fired. -/
def clientFireServer (s : Option ClientNetwork) (route : String) (currentTime : ℚ)
    (args : List Int) : Except String (ClientNetwork × Nat) :=
  match s with
  | none => .error notInitMsg
  | some inst =>
    match clientGetRoute (some inst) route with
    | .error e => .error e
    | .ok ri =>
      if ri.remoteType == .function then .error ("Route '" ++ route ++ "' is not a event")
      else if cooldownTripped inst route ri currentTime then .error (cooldownMsg route)
      else .ok ({ inst with log := aset inst.log route currentTime }, ri.remote)

/-- `Network.OnEvent(eventType, route, callback)`: guard on initialization,
route existence, call kind and double connection; attach the listener. -/
def clientOnEvent (s : Option ClientNetwork) (route : String) : Except String ClientNetwork :=
  match s with
  | none => .error notInitMsg
  | some inst =>
    match clientGetRoute (some inst) route with
    | .error e => .error e
    | .ok ri =>
      if ri.remoteType == .function then .error ("Route '" ++ route ++ "' is not a event")
      else if inst.connections.contains route then
        .error ("Route " ++ route ++ " already connected")
      else .ok { inst with connections := inst.connections ++ [route] }

/-- `Network.Disconnect(route)`: guard on initialization; disconnect and clear
the stored connection if one exists, otherwise do nothing. -/
def clientDisconnect (s : Option ClientNetwork) (route : String) : Except String ClientNetwork :=
  match s with
  | none => .error notInitMsg
  | some inst =>
    if inst.connections.contains route then
      .ok { inst with connections := inst.connections.filter (fun r => r != route) }
    else .ok inst

/-! #### `InvokeServer` and its polling loop

The reply channel is modelled by an arrival oracle
`arrival : Option (Nat × Option V)`: `some (k, v)` means the one-shot
`OnClientEvent.Once` listener captures the value `v` (which may itself be the
undefined value, `none`) once `k` poll iterations have elapsed; `none` means no
message ever arrives while the listener is attached.  One poll iteration is
one `wait(0.1)`, so the elapsed time after `i` iterations is `i / 10`
seconds. -/

/-- The value of the local `result` variable once `i` poll iterations have
elapsed: the captured message's value if it has arrived, `undefined`
otherwise. -/
def resultAt {V : Type} (arrival : Option (Nat × Option V)) (i : Nat) : Option V :=
  match arrival with
  | none => none
  | some (k, v) => if k ≤ i then v else none

/-- The `while (os.clock() - startTime < waitTime && result === undefined)
wait(0.1)` loop, counting iterations.  `fuel` bounds the recursion and is
chosen large enough to never be exhausted (`pollLoop`).  Returns the final
`result` and the number of iterations performed. -/
def pollGo {V : Type} (w : ℚ) (arrival : Option (Nat × Option V)) :
    Nat → Nat → Option V × Nat
  | 0, i => (resultAt arrival i, i)
  | fuel + 1, i =>
    if (i : ℚ) / 10 < w then
      match resultAt arrival i with
      | none => pollGo w arrival fuel (i + 1)
      | some v => (some v, i)
    else (resultAt arrival i, i)

/-- The polling loop of `InvokeServer`, started with sufficient fuel. -/
def pollLoop {V : Type} (w : ℚ) (arrival : Option (Nat × Option V)) : Option V × Nat :=
  pollGo w arrival (⌈w * 10⌉.toNat + 1) 0

/-- The observable outcome of one `InvokeServer` call: the returned value
(`none` is the undefined sentinel), the number of poll iterations the call
blocked for, and whether the one-shot listener was disconnected on exit. -/
structure InvokeOutcome (V : Type) where
  result : Option V
  iters : Nat
  detached : Bool

/-- `Network.InvokeServer(route, waitTime, ...args)`: guard on initialization,
route existence, call kind and cooldown; attach a one-shot listener, fire the
request, update the log, poll until a reply is captured or `waitTime` elapses,
then disconnect the listener (the local `connection` is always set at that
point) and return the captured result. -/
def clientInvokeServer {V : Type} (s : Option ClientNetwork) (route : String)
    (currentTime w : ℚ) (args : List Int) (arrival : Option (Nat × Option V)) :
    Except String (ClientNetwork × InvokeOutcome V) :=
  match s with
  | none => .error notInitMsg
  | some inst =>
    match clientGetRoute (some inst) route with
    | .error e => .error e
    | .ok ri =>
      if !(ri.remoteType == .function) then .error ("Route '" ++ route ++ "' is not a function")
      else if cooldownTripped inst route ri currentTime then .error (cooldownMsg route)
      else
        let connection : Option Nat := some 0
        let r := pollLoop w arrival
        .ok ({ inst with log := aset inst.log route currentTime },
             { result := r.1, iters := r.2, detached := connection.isSome })

/-- Client `Network.start()`: build the bootstrap instance whose routing table
holds only the get-tree entry (cooldown 5, secure, `"function"`, the remote
found under `NetworkRemotes/get-tree/get-tree`, passed in as `initRemote`),
perform the blocking `InvokeServer("root/network/get-tree", 5)`, and

* on an undefined result: reset the singleton to `undefined` and throw
  (`bootFailMsg`);
* on a defined result: install a fresh instance around the returned table.

Returns the resulting singleton state and the thrown error, if any.  A `start`
on an already-initialized singleton is a no-op. -/
def clientStart (s : Option ClientNetwork) (initRemote : Nat) (currentTime : ℚ)
    (arrival : Option (Nat × Option (List (String × SimpleRouteInfo)))) :
    Option ClientNetwork × Option String :=
  match s with
  | some inst => (some inst, none)
  | none =>
    let boot : ClientNetwork :=
      { routingTable :=
          [("root/network/get-tree",
            { remote := initRemote, secure := true, remoteType := .function, cooldown := some 5 })]
        log := []
        connections := [] }
    match clientInvokeServer (some boot) "root/network/get-tree" currentTime 5 [] arrival with
    | .error e => (some boot, some e)
    | .ok (_, outc) =>
      match outc.result with
      | none => (none, some bootFailMsg)
      | some tbl => (some { routingTable := tbl, log := [], connections := [] }, none)

/-! ### Specification-side definitions for the flattened table -/

/-- Well-formed route trees: every child is keyed by its route's `name`,
sibling keys are distinct, and every (non-root) route name is nonempty,
`/`-free and lower-case.  These invariants hold for the default tree and are
preserved by registrations whose endpoint names are nonempty, `/`-free and
lower-case; `NewRoute` does not normalize names, so an endpoint like
`"Admin"` escapes this class. -/
inductive WF : TreeNode → Prop where
  | mk : ∀ (v : Route) (cs : List (String × TreeNode)),
      (∀ c ∈ cs, c.1 = c.2.value.name) →
      (cs.map Prod.fst).Nodup →
      (∀ c ∈ cs, c.2.value.name ≠ "" ∧ slashFree c.2.value.name ∧
        lowerStr c.2.value.name = c.2.value.name) →
      (∀ c ∈ cs, WF c.2) →
      WF (.mk v cs)

mutual

/-- The list of entries `depthFirstSearch` intends to produce for a subtree
(pre-order, without the table-overwrite bookkeeping). -/
def specNode (store : MwStore) : TreeNode → String → List (String × SimpleRouteInfo)
  | .mk route cs, path =>
    let fullPath := if path == "" then route.name else path ++ "/" ++ route.name
    (fullPath, mkInfo store route) :: specList store cs fullPath

/-- `specNode` over a child list. -/
def specList (store : MwStore) : List (String × TreeNode) → String → List (String × SimpleRouteInfo)
  | [], _ => []
  | c :: rest, path => specNode store c.2 path ++ specList store rest path

end

mutual

/-- The addresses of a subtree as segment lists, below the prefix `pre`. -/
def addrsNode : TreeNode → List String → List (List String)
  | .mk v cs, pre => (pre ++ [v.name]) :: addrsList cs (pre ++ [v.name])

/-- `addrsNode` over a child list. -/
def addrsList : List (String × TreeNode) → List String → List (List String)
  | [], _ => []
  | c :: rest, pre => addrsNode c.2 pre ++ addrsList rest pre

end

/-! ### Helper lemmas: association lists -/

theorem lookup_cons_unfold {κ α : Type} [BEq κ] (k k1 : κ) (v1 : α) (rest : List (κ × α)) :
    ((k1, v1) :: rest).lookup k = if k == k1 then some v1 else rest.lookup k := by
  cases h : k == k1 <;> simp [List.lookup, h]

theorem lookup_aset_self {κ α : Type} [BEq κ] [LawfulBEq κ] (l : List (κ × α)) (k : κ) (v : α) :
    (aset l k v).lookup k = some v := by
  induction l with
  | nil => simp [aset, lookup_cons_unfold]
  | cons e rest ih =>
    obtain ⟨k1, v1⟩ := e
    by_cases h : k1 = k
    · subst h; simp [aset, lookup_cons_unfold]
    · have hb : (k1 == k) = false := by simpa using h
      have hb' : (k == k1) = false := by simpa using Ne.symm h
      simp only [aset, hb, Bool.false_eq_true, if_false, lookup_cons_unfold, hb']
      exact ih

theorem lookup_aset_ne {κ α : Type} [BEq κ] [LawfulBEq κ] (l : List (κ × α)) (k k' : κ) (v : α)
    (h : k' ≠ k) : (aset l k v).lookup k' = l.lookup k' := by
  induction l with
  | nil => simp [aset, lookup_cons_unfold, h]
  | cons e rest ih =>
    obtain ⟨k1, v1⟩ := e
    by_cases h1 : k1 = k
    · subst h1
      have hb : (k' == k1) = false := by simpa using h
      simp [aset, lookup_cons_unfold, hb]
    · have hb : (k1 == k) = false := by simpa using h1
      simp only [aset, hb, Bool.false_eq_true, if_false, lookup_cons_unfold]
      rw [ih]

theorem lookup_adel_self {κ α : Type} [BEq κ] [LawfulBEq κ] (l : List (κ × α)) (k : κ) :
    (adel l k).lookup k = none := by
  induction l with
  | nil => simp [adel]
  | cons e rest ih =>
    obtain ⟨k1, v1⟩ := e
    by_cases h : k1 = k
    · subst h
      simpa [adel, List.filter] using ih
    · have hb : (!(k1 == k)) = true := by simpa using h
      have hb' : (k == k1) = false := by simpa using Ne.symm h
      simp only [adel, List.filter, hb]
      rw [lookup_cons_unfold, hb']
      simpa [adel] using ih

theorem aset_of_not_mem_keys {κ α : Type} [BEq κ] [LawfulBEq κ]
    (l : List (κ × α)) (k : κ) (v : α) (h : k ∉ l.map Prod.fst) :
    aset l k v = l ++ [(k, v)] := by
  induction l with
  | nil => simp [aset]
  | cons e rest ih =>
    obtain ⟨k1, v1⟩ := e
    simp only [List.map, List.mem_cons] at h
    push_neg at h
    have hb : (k1 == k) = false := by simpa using fun he => h.1 he.symm
    simp only [aset, hb, Bool.false_eq_true, if_false, List.cons_append, List.cons.injEq, true_and]
    exact ih h.2

theorem lookup_of_mem_nodup {κ α : Type} [BEq κ] [LawfulBEq κ]
    (l : List (κ × α)) (k : κ) (v : α) (hmem : (k, v) ∈ l)
    (hnd : (l.map Prod.fst).Nodup) : l.lookup k = some v := by
  induction l with
  | nil => simp at hmem
  | cons e rest ih =>
    obtain ⟨k1, v1⟩ := e
    simp only [List.map, List.nodup_cons] at hnd
    rcases List.mem_cons.1 hmem with h | h
    · have hk : k = k1 := (Prod.mk.injEq .. ▸ h).1
      have hv : v = v1 := (Prod.mk.injEq .. ▸ h).2
      subst hk; subst hv
      simp [lookup_cons_unfold]
    · have hk1 : (k == k1) = false := by
        have : k ≠ k1 := by
          intro he; subst he
          exact hnd.1 (List.mem_map.2 ⟨(k, v), h, rfl⟩)
        simpa using this
      rw [lookup_cons_unfold, hk1]
      simp only [Bool.false_eq_true, if_false]
      exact ih h hnd.2

theorem lookup_append_left {κ α : Type} [BEq κ] (l1 l2 : List (κ × α)) (k : κ) (v : α)
    (h : l1.lookup k = some v) : (l1 ++ l2).lookup k = some v := by
  induction l1 with
  | nil => simp [List.lookup] at h
  | cons e rest ih =>
    obtain ⟨k1, v1⟩ := e
    rw [lookup_cons_unfold] at h
    rw [List.cons_append, lookup_cons_unfold]
    cases hk : k == k1
    · rw [hk] at h
      simp only [Bool.false_eq_true, if_false] at h ⊢
      exact ih h
    · rw [hk] at h
      simpa using h

/-! ### Helper lemmas: tree induction -/

/-- Structural induction principle for the nested inductive `TreeNode`. -/
theorem TreeNode.ind (motive : TreeNode → Prop)
    (h : ∀ (v : Route) (cs : List (String × TreeNode)),
      (∀ c ∈ cs, motive c.2) → motive (.mk v cs)) : ∀ t, motive t := by
  have key : ∀ (n : Nat) (t : TreeNode), sizeOf t ≤ n → motive t := by
    intro n
    induction n with
    | zero =>
      intro t ht
      cases t with
      | mk v cs => simp at ht
    | succ n ih =>
      intro t ht
      cases t with
      | mk v cs =>
        refine h v cs (fun c hc => ih c.2 ?_)
        have h1 : sizeOf c < sizeOf cs := List.sizeOf_lt_of_mem hc
        have h2 : sizeOf c.2 < sizeOf c := by
          obtain ⟨a, b⟩ := c
          simp
        have h3 : sizeOf cs < sizeOf (TreeNode.mk v cs) := by
          simp
        omega
  exact fun t => key (sizeOf t) t le_rfl

/-! ### C1: middleware cooldown semantics -/

/-- C1: For every `Middleware` with cooldown `c` and every peer: the first
`execute` call at time `t` records `t` as the peer's last-use and proceeds to
the callbacks (succeeding iff no callback throws, and invoking exactly the
callbacks the chain runs); a subsequent call at `t'` with `t' - lastUse < c`
returns `false`, leaves the log entry unchanged and runs no callback; a call
with `t' - lastUse ≥ c` updates the log entry to `t'` and runs the callbacks.
Concretely with `c = 5` (one always-succeeding callback): the first call at
`t = 0` succeeds, a call at `t = 3` returns `false` with the whole state
unchanged, and a call at `t = 6` succeeds with the log updated to `6`. -/
theorem c1_middleware_cooldown :
    (∀ (m : MwObj) (p : Nat) (t : ℚ) (args : List Int),
      m.log.lookup p = none →
        (m.execute p t args).1 = (runCallbacks m.middlewares p args).1.isNone ∧
        (m.execute p t args).2.1.log.lookup p = some t ∧
        (m.execute p t args).2.2 = (runCallbacks m.middlewares p args).2) ∧
    (∀ (m : MwObj) (p : Nat) (t lu : ℚ) (args : List Int),
      m.log.lookup p = some lu → t - lu < m.clientSideCooldown →
        m.execute p t args = (false, m, 0)) ∧
    (∀ (m : MwObj) (p : Nat) (t lu : ℚ) (args : List Int),
      m.log.lookup p = some lu → m.clientSideCooldown ≤ t - lu →
        (m.execute p t args).1 = (runCallbacks m.middlewares p args).1.isNone ∧
        (m.execute p t args).2.1.log.lookup p = some t ∧
        (m.execute p t args).2.2 = (runCallbacks m.middlewares p args).2) ∧
    (((⟨[], 5, [fun _ _ => .ok ()]⟩ : MwObj).execute 1 0 []).1 = true ∧
     ((⟨[], 5, [fun _ _ => .ok ()]⟩ : MwObj).execute 1 0 []).2.1.log.lookup 1 = some 0 ∧
     ((⟨[], 5, [fun _ _ => .ok ()]⟩ : MwObj).execute 1 0 []).2.2 = 1 ∧
     ((⟨[], 5, [fun _ _ => .ok ()]⟩ : MwObj).execute 1 0 []).2.1.execute 1 3 [] =
       (false, ((⟨[], 5, [fun _ _ => .ok ()]⟩ : MwObj).execute 1 0 []).2.1, 0) ∧
     (((⟨[], 5, [fun _ _ => .ok ()]⟩ : MwObj).execute 1 0 []).2.1.execute 1 6 []).1 = true ∧
     (((⟨[], 5, [fun _ _ => .ok ()]⟩ : MwObj).execute 1 0 []).2.1.execute 1 6 []).2.1.log.lookup 1
       = some 6) := by
  refine ⟨?_, ?_, ?_, ?_⟩
  · intro m p t args h
    simp only [MwObj.execute, h]
    rcases hr : runCallbacks m.middlewares p args with ⟨err, n⟩
    cases err <;> simp [finishExec, hr, lookup_aset_self]
  · intro m p t lu args h hcd
    simp only [MwObj.execute, h]
    rw [if_pos hcd]
  · intro m p t lu args h hcd
    simp only [MwObj.execute, h]
    rw [if_neg (not_lt.2 hcd)]
    rcases hr : runCallbacks m.middlewares p args with ⟨err, n⟩
    cases err <;> simp [finishExec, hr, lookup_aset_self]
  · norm_num [MwObj.execute, List.lookup, aset, finishExec, runCallbacks]

/-- Witness for C1: the cooldown-rejection branch applied at a concrete state
(peer 1 last used at time 0, cooldown 5, call at time 3). -/
theorem c1_witness :
    (⟨[(1, 0)], 5, []⟩ : MwObj).execute 1 3 [] = (false, ⟨[(1, 0)], 5, []⟩, 0) :=
  c1_middleware_cooldown.2.1 ⟨[(1, 0)], 5, []⟩ 1 3 0 [] rfl (by norm_num)

/-! ### C9: a throwing callback still consumes the cooldown window -/

/-- C9: When a validation callback raises during `Middleware.execute` (on a
call that passed the cooldown check — first use or window elapsed), the call
returns `false` but the peer's last-use timestamp has already been updated to
the call's time; hence the same peer's next call within `cooldownSeconds` of
the rejected call is rejected by the cooldown check alone, with no callback
running. -/
theorem c9_raise_consumes_cooldown (m : MwObj) (p : Nat) (t t' : ℚ)
    (args args' : List Int) (e : String) (n : Nat)
    (hpass : m.log.lookup p = none ∨
      ∃ lu, m.log.lookup p = some lu ∧ m.clientSideCooldown ≤ t - lu)
    (hraise : runCallbacks m.middlewares p args = (some e, n)) :
    (m.execute p t args).1 = false ∧
    (m.execute p t args).2.1.log.lookup p = some t ∧
    (t' - t < m.clientSideCooldown →
      (m.execute p t args).2.1.execute p t' args' = (false, (m.execute p t args).2.1, 0)) := by
  have hexec : m.execute p t args =
      (false, { m with log := aset m.log p t }, n) := by
    rcases hpass with h | ⟨lu, h, hcd⟩
    · simp only [MwObj.execute, h, finishExec, hraise]
    · simp only [MwObj.execute, h]
      rw [if_neg (not_lt.2 hcd)]
      simp only [finishExec, hraise]
  rw [hexec]
  refine ⟨rfl, lookup_aset_self m.log p t, ?_⟩
  intro hwin
  simp only [MwObj.execute, lookup_aset_self m.log p t]
  rw [if_pos hwin]

/-- Witness for C9: a middleware with cooldown 5 whose only callback throws;
the raising call at `t = 0` returns `false` yet stamps the log, and the retry
at `t = 3` is rejected by the cooldown alone. -/
theorem c9_witness :
    ((⟨[], 5, [fun _ _ => .error "boom"]⟩ : MwObj).execute 1 0 []).1 = false ∧
    ((⟨[], 5, [fun _ _ => .error "boom"]⟩ : MwObj).execute 1 0 []).2.1.log.lookup 1 = some 0 ∧
    ((⟨[], 5, [fun _ _ => .error "boom"]⟩ : MwObj).execute 1 0 []).2.1.execute 1 3 [] =
      (false, ((⟨[], 5, [fun _ _ => .error "boom"]⟩ : MwObj).execute 1 0 []).2.1, 0) := by
  have h := c9_raise_consumes_cooldown ⟨[], 5, [fun _ _ => .error "boom"]⟩ 1 0 3 [] [] "boom" 1
    (Or.inl rfl) rfl
  exact ⟨h.1, h.2.1, h.2.2 (by norm_num)⟩

/-! ### C5: middleware rejections are silent at the listener -/

/-- C5: For a host-side route with middleware, when `Middleware.execute`
rejects an inbound message (cooldown or a raising validation callback — any
case in which it returns `false`), the `OnEvent` listener neither invokes the
registered handler nor lets any error escape: it returns normally with the
handler-ran flag `false` (only the middleware log advances), and the
`OnInvoke` listener likewise sends no reply and runs no handler. -/
theorem c5_silent_rejection (st : ServerState) (route : Route) (mid : Nat) (mw : MwObj)
    (callback : Nat → List Int → Except String Unit)
    (icallback : Nat → List Int → Except String (Option Int))
    (p : Nat) (t : ℚ) (args : List Int)
    (hmid : route.middleware = some mid)
    (hmw : st.mwStore.lookup mid = some mw)
    (hrej : (mw.execute p t args).1 = false) :
    onEventMessage st route callback p t args =
      .ok ({ st with mwStore := aset st.mwStore mid (mw.execute p t args).2.1 }, false) ∧
    onInvokeMessage st route icallback p t args =
      .ok ({ st with mwStore := aset st.mwStore mid (mw.execute p t args).2.1 }, none) := by
  constructor
  · simp only [onEventMessage, hmid, hmw, hrej]
    simp
  · simp only [onInvokeMessage, hmid, hmw, hrej]
    simp

/-- Witness for C5: the root route of the started registry after peer 1 has
used it at time 0; a message from peer 1 at time 3 is inside the 10-second
cooldown, so the listener returns normally without running the handler — even
though the supplied handler would throw if invoked. -/
theorem c5_witness :
    onEventMessage
      { startState with mwStore := aset startState.mwStore 0 ⟨[(1, 0)], 10, []⟩ }
      startState.tree.value (fun _ _ => .error "handler ran") 1 3 [] =
    .ok ({ startState with
            mwStore := aset (aset startState.mwStore 0 ⟨[(1, 0)], 10, []⟩) 0
              ((⟨[(1, 0)], 10, []⟩ : MwObj).execute 1 3 []).2.1 }, false) := by
  have h := c5_silent_rejection
    { startState with mwStore := aset startState.mwStore 0 ⟨[(1, 0)], 10, []⟩ }
    startState.tree.value 0 ⟨[(1, 0)], 10, []⟩
    (fun _ _ => .error "handler ran") (fun _ _ => .ok none) 1 3 []
    rfl (by norm_num [startState, aset, List.lookup]) (by norm_num [MwObj.execute, List.lookup])
  exact h.1

/-! ### C4: the session-end hook and the record cache -/

/-- Once a store maps `mid` to a log without `pid`, every further `clearStep`
keeps it that way. -/
theorem clearStep_preserves (pid mid : Nat) (store : MwStore) (kv : String × Route)
    (h : ∀ mw', store.lookup mid = some mw' → mw'.log.lookup pid = none) :
    ∀ mw', (clearStep pid store kv).lookup mid = some mw' → mw'.log.lookup pid = none := by
  intro mw' hl
  unfold clearStep at hl
  rcases hkv : kv.2.middleware with _ | mid'
  · simp only [hkv] at hl; exact h mw' hl
  · simp only [hkv] at hl
    rcases hst : store.lookup mid' with _ | mw0
    · simp only [hst] at hl; exact h mw' hl
    · simp only [hst] at hl
      by_cases hmm : mid = mid'
      · subst hmm
        rw [lookup_aset_self] at hl
        cases hl
        exact lookup_adel_self mw0.log pid
      · rw [lookup_aset_ne _ _ _ _ hmm] at hl
        exact h mw' hl

/-- Folding `clearStep` preserves the cleared-at-`mid` property. -/
theorem clearFold_preserves (pid mid : Nat) (l : List (String × Route)) :
    ∀ (store : MwStore),
      (∀ mw', store.lookup mid = some mw' → mw'.log.lookup pid = none) →
      ∀ mw', (l.foldl (clearStep pid) store).lookup mid = some mw' →
        mw'.log.lookup pid = none := by
  induction l with
  | nil => intro store h; exact h
  | cons kv rest ih =>
    intro store h
    exact ih (clearStep pid store kv) (clearStep_preserves pid mid store kv h)

/-- Processing an entry whose route references `mid` establishes the
cleared-at-`mid` property. -/
theorem clearStep_establishes (pid mid : Nat) (store : MwStore) (k : String) (r : Route)
    (hmid : r.middleware = some mid) :
    ∀ mw', (clearStep pid store (k, r)).lookup mid = some mw' → mw'.log.lookup pid = none := by
  intro mw' hl
  unfold clearStep at hl
  simp only [hmid] at hl
  rcases hst : store.lookup mid with _ | mw0
  · simp only [hst] at hl
    exact Option.noConfusion hl
  · simp only [hst] at hl
    rw [lookup_aset_self] at hl
    cases hl
    exact lookup_adel_self mw0.log pid

/-- C4 (amended): when a peer's session ends, the hook deletes that peer's
cooldown-log entry from every route *present in the `record` cache* that
carries middleware.  (The original claim — that consequently no middleware
log anywhere in the registry's tree still maps the peer — fails: `getRoute`
never caches the root route, so a middleware attached to the root, and any
route never resolved through `getRoute`, keeps its entries; see the
counterexample.) -/
theorem c4_hook_clears_cached (st : ServerState) (pid : Nat) (k : String) (r : Route)
    (mid : Nat) (mw' : MwObj)
    (hmem : (k, r) ∈ st.record) (hmid : r.middleware = some mid)
    (hlook : (clearRouteLogsFor st pid).mwStore.lookup mid = some mw') :
    mw'.log.lookup pid = none := by
  obtain ⟨l1, l2, hsplit⟩ := List.append_of_mem hmem
  unfold clearRouteLogsFor at hlook
  simp only [hsplit, List.foldl_append, List.foldl_cons] at hlook
  exact clearFold_preserves pid mid l2 _
    (clearStep_establishes pid mid _ k r hmid) mw' hlook

/-- Witness for C4 (amended): a registry state whose `record` caches the
get-tree route while its middleware log maps peer 7; after the hook for peer 7
runs, that middleware's log no longer maps peer 7. -/
theorem c4_witness :
    ∃ mw', (clearRouteLogsFor
        { startState with
            record := [("root/network/get-tree",
              { path := "root/network", name := "get-tree", secure := true
                remoteType := .function, middleware := some 2, remote := 2 })]
            mwStore := [(0, ⟨[], 10, []⟩), (1, ⟨[], 5, []⟩), (2, ⟨[(7, 1)], 5, []⟩)] }
        7).mwStore.lookup 2 = some mw' ∧
      mw'.log.lookup 7 = none := by
  refine ⟨⟨[], 5, []⟩, rfl, ?_⟩
  exact c4_hook_clears_cached
    { startState with
        record := [("root/network/get-tree",
          { path := "root/network", name := "get-tree", secure := true
            remoteType := .function, middleware := some 2, remote := 2 })]
        mwStore := [(0, ⟨[], 10, []⟩), (1, ⟨[], 5, []⟩), (2, ⟨[(7, 1)], 5, []⟩)] }
    7 "root/network/get-tree"
    { path := "root/network", name := "get-tree", secure := true
      remoteType := .function, middleware := some 2, remote := 2 } 2 ⟨[], 5, []⟩
    (by simp) rfl rfl

/-- C4 (counterexample to the claim as stated): from the freshly started
registry, attach a listener to the root route (`getRoute "root"` returns the
root route *without* caching it in `record`); peer 7 fires at time 0, so the
root middleware logs it; when peer 7's session ends, the hook iterates the
(empty) `record` and changes nothing — the root route's middleware, which
lives in the registry's tree, still maps peer 7. -/
theorem c4_counterexample :
    getRoute startState "root" = .ok (startState, startState.tree.value) ∧
    ∃ st1,
      onEventMessage startState startState.tree.value (fun _ _ => .ok ()) 7 0 [] =
        .ok (st1, true) ∧
      clearRouteLogsFor st1 7 = st1 ∧
      startState.tree.value.middleware = some 0 ∧
      ∃ mw, (clearRouteLogsFor st1 7).mwStore.lookup 0 = some mw ∧
        mw.log.lookup 7 = some 0 :=
  ⟨rfl, _, rfl, rfl, rfl, _, rfl, rfl⟩

/-! ### C3: the immutable set does not protect `root/network/get-tree` -/

/-- C3 (divergence witness): `EditRoute` targeting the immutable address
`root/network/get-tree` (parent path `"root/network"`, endpoint `"get-tree"`)
is *not* a no-op: no warning is produced and the stored route is replaced —
here its call kind flips from `"function"` to `"event"`.  The guard
`path.lower() in unEditableRoutes` key-indexes the `unEditableRoutes` *array*
(whose entries sit under numeric keys), so it never matches any string, and it
tests the parent path rather than the full target address. -/
theorem c3_editroute_immutable_bug :
    ∃ st', EditRoute startState "root/network"
        { endPoint := "get-tree", secure := true, remoteType := .event, middleware := none } =
        .ok (st', none) ∧
      (∃ n, traverseGet st'.tree "root/network/get-tree" = .ok n ∧
        n.value.remoteType = .event) ∧
      (∃ n0, traverseGet startState.tree "root/network/get-tree" = .ok n0 ∧
        n0.value.remoteType = .function) ∧
      luaIn startState.unEditableRoutes (.str "root/network/get-tree") = false :=
  ⟨_, rfl, ⟨_, rfl, rfl⟩, ⟨_, rfl, rfl⟩, rfl⟩

/-! ### C6: `EditRoute` preserves descendants -/

/-- C6: `EditRoute` on an existing, editable route replaces the `Route`
payload while re-parenting the old node's children onto the new node: after
registering `root/a` and the child `root/a/b`, editing `root/a` (with any call
kind and middleware) leaves `root/a/b` traversable and bound to the very same
subtree as before the edit, while `root/a` carries the new payload over the
old children. -/
theorem c6_edit_preserves_descendants (rt : RemoteType) (mwp : Option MwObj) :
    ∃ st1 st2 st3 nodeB oldA newA,
      NewRoute startState "root"
        { endPoint := "a", secure := true, remoteType := .event, middleware := none } = .ok st1 ∧
      NewRoute st1 "root/a"
        { endPoint := "b", secure := true, remoteType := .event, middleware := none } = .ok st2 ∧
      EditRoute st2 "root"
        { endPoint := "a", secure := true, remoteType := rt, middleware := mwp } =
        .ok (st3, none) ∧
      traverseGet st2.tree "root/a/b" = .ok nodeB ∧
      traverseGet st3.tree "root/a/b" = .ok nodeB ∧
      traverseGet st2.tree "root/a" = .ok oldA ∧
      traverseGet st3.tree "root/a" = .ok newA ∧
      newA.children = oldA.children ∧
      newA.value.remoteType = rt := by
  cases mwp with
  | none => exact ⟨_, _, _, _, _, _, rfl, rfl, rfl, rfl, rfl, rfl, rfl, rfl, rfl⟩
  | some mwObj => exact ⟨_, _, _, _, _, _, rfl, rfl, rfl, rfl, rfl, rfl, rfl, rfl, rfl⟩

/-! ### Helper lemmas: the `InvokeServer` polling loop -/

theorem resultAt_undef {V : Type} (k i : Nat) :
    resultAt (some (k, (none : Option V))) i = none := by
  simp [resultAt]

theorem pollGo_undef_eq {V : Type} (w : ℚ) (k : Nat) :
    ∀ (fuel i : Nat), pollGo w (some (k, (none : Option V))) fuel i = pollGo w none fuel i := by
  intro fuel
  induction fuel with
  | zero => intro i; simp [pollGo, resultAt_undef, resultAt]
  | succ n ih =>
    intro i
    simp only [pollGo, resultAt_undef]
    simp only [resultAt]
    split
    · exact ih (i + 1)
    · rfl

theorem pollLoop_undef_eq {V : Type} (w : ℚ) (k : Nat) :
    pollLoop w (some (k, (none : Option V))) = pollLoop w none := by
  unfold pollLoop
  exact pollGo_undef_eq w k _ 0

theorem pollGo_none_spec {V : Type} (w : ℚ) (arrival : Option (Nat × Option V))
    (hnone : ∀ j, resultAt arrival j = none) :
    ∀ (fuel i : Nat), 10 * w ≤ (i : ℚ) + (fuel : ℚ) →
      (pollGo w arrival fuel i).1 = none ∧
      w ≤ ((pollGo w arrival fuel i).2 : ℚ) / 10 ∧
      ((pollGo w arrival fuel i).2 = i ∨
        (((pollGo w arrival fuel i).2 : ℚ) - 1) / 10 < w) := by
  intro fuel
  induction fuel with
  | zero =>
    intro i hle
    have he : pollGo w arrival 0 i = (none, i) := by simp [pollGo, hnone]
    rw [he]
    refine ⟨rfl, ?_, Or.inl rfl⟩
    rw [le_div_iff₀ (by norm_num : (0 : ℚ) < 10)]
    push_cast at hle
    linarith
  | succ n ih =>
    intro i hle
    by_cases hc : (i : ℚ) / 10 < w
    · have he : pollGo w arrival (n + 1) i = pollGo w arrival n (i + 1) := by
        simp only [pollGo, hnone]
        rw [if_pos hc]
      rw [he]
      have h2 : 10 * w ≤ ((i + 1 : Nat) : ℚ) + (n : ℚ) := by push_cast at hle ⊢; linarith
      obtain ⟨ha, hb, hor⟩ := ih (i + 1) h2
      refine ⟨ha, hb, ?_⟩
      right
      rcases hor with he2 | hlt
      · rw [he2]
        have heq : (((i + 1 : Nat) : ℚ) - 1) / 10 = (i : ℚ) / 10 := by push_cast; ring
        rw [heq]
        exact hc
      · exact hlt
    · have he : pollGo w arrival (n + 1) i = (none, i) := by
        simp only [pollGo, hnone]
        rw [if_neg hc]
      rw [he]
      refine ⟨rfl, not_lt.1 hc, Or.inl rfl⟩

theorem pollLoop_none_spec {V : Type} (w : ℚ) (arrival : Option (Nat × Option V))
    (hnone : ∀ j, resultAt arrival j = none) (hw : 0 < w) :
    (pollLoop w arrival).1 = none ∧
    w ≤ ((pollLoop w arrival).2 : ℚ) / 10 ∧
    (((pollLoop w arrival).2 : ℚ) - 1) / 10 < w ∧
    1 ≤ (pollLoop w arrival).2 := by
  have hfuel : 10 * w ≤ ((0 : Nat) : ℚ) + ((⌈w * 10⌉.toNat + 1 : Nat) : ℚ) := by
    have h1 : w * 10 ≤ (⌈w * 10⌉ : ℚ) := Int.le_ceil _
    have h2 : ((⌈w * 10⌉ : Int) : ℚ) ≤ ((⌈w * 10⌉.toNat : Int) : ℚ) := by
      exact_mod_cast Int.self_le_toNat _
    push_cast at h1 h2 ⊢
    linarith
  obtain ⟨h1, h2, h3⟩ := pollGo_none_spec w arrival hnone (⌈w * 10⌉.toNat + 1) 0 hfuel
  have hne : (pollGo w arrival (⌈w * 10⌉.toNat + 1) 0).2 ≠ 0 := by
    intro h0
    rw [h0] at h2
    norm_num at h2
    exact absurd (lt_of_lt_of_le hw h2) (lt_irrefl 0)
  refine ⟨h1, h2, ?_, Nat.one_le_iff_ne_zero.2 hne⟩
  rcases h3 with he | hlt
  · exact absurd he hne
  · exact hlt

/-- Reduction of a guard-passing `InvokeServer` call. -/
theorem clientInvokeServer_ok {V : Type} (inst : ClientNetwork) (route : String)
    (t w : ℚ) (args : List Int) (arrival : Option (Nat × Option V)) (ri : SimpleRouteInfo)
    (hri : inst.routingTable.lookup route = some ri)
    (hfn : ri.remoteType = .function)
    (hcd : cooldownTripped inst route ri t = false) :
    clientInvokeServer (some inst) route t w args arrival =
      .ok ({ inst with log := aset inst.log route t },
        { result := (pollLoop w arrival).1, iters := (pollLoop w arrival).2
          detached := true }) := by
  simp only [clientInvokeServer, clientGetRoute, hri, hfn, hcd]
  simp

/-! ### C2: bootstrap failure leaves the peer registry uninitialized -/

/-- C2: If the bootstrap `InvokeServer("root/network/get-tree", 5)` inside the
client `start` captures no defined reply within the window (timeout or an
undefined reply), `start` discards the partial instance and fails fatally with
the bootstrap error, leaving the singleton `undefined`; every subsequent
`FireServer`, `OnEvent`, `InvokeServer` and `Disconnect` against the
uninitialized singleton fails fast with the not-initialized error. -/
theorem c2_bootstrap_failure (initRemote : Nat) (t : ℚ)
    (arrival : Option (Nat × Option (List (String × SimpleRouteInfo))))
    (hto : (pollLoop 5 arrival).1 = none) :
    clientStart none initRemote t arrival = (none, some bootFailMsg) ∧
    (∀ (route : String) (t' : ℚ) (args : List Int),
      clientFireServer none route t' args = .error notInitMsg) ∧
    (∀ route : String, clientOnEvent none route = .error notInitMsg) ∧
    (∀ (V : Type) (route : String) (t' w : ℚ) (args : List Int)
        (arr : Option (Nat × Option V)),
      clientInvokeServer none route t' w args arr = .error notInitMsg) ∧
    (∀ route : String, clientDisconnect none route = .error notInitMsg) := by
  refine ⟨?_, fun _ _ _ => rfl, fun _ => rfl, fun _ _ _ _ _ _ => rfl, fun _ => rfl⟩
  simp only [clientStart]
  rw [clientInvokeServer_ok
    ⟨[("root/network/get-tree", ⟨initRemote, true, .function, some 5⟩)], [], []⟩
    "root/network/get-tree" t 5 [] arrival
    ⟨initRemote, true, .function, some 5⟩ rfl rfl rfl]
  simp [hto]

/-- Witness for C2: no message ever arrives (`arrival = none`); the bootstrap
fails and the singleton stays `undefined`. -/
theorem c2_witness : clientStart none 0 0 none = (none, some bootFailMsg) :=
  (c2_bootstrap_failure 0 0 none
    (pollLoop_none_spec 5 none (fun _ => rfl) (by norm_num)).1).1

/-! ### C8: `InvokeServer` timeout behaviour -/

/-- C8: For every peer-side `InvokeServer` call on a request-response route
(passing the initialization, call-kind and cooldown guards) where no reply
ever arrives: the call returns the undefined sentinel — a normal return, not
an exception — only after the wait has elapsed (at least one poll iteration;
the blocked time `iters / 10` is at least `waitTime` and less than
`waitTime + 0.1`); and for *every* arrival pattern the one-shot listener is
detached on exit. -/
theorem c8_invoke_timeout (inst : ClientNetwork) (route : String) (t w : ℚ)
    (args : List Int) (ri : SimpleRouteInfo)
    (hri : inst.routingTable.lookup route = some ri)
    (hfn : ri.remoteType = .function)
    (hcd : cooldownTripped inst route ri t = false)
    (hw : 0 < w) :
    (∀ V : Type, ∃ inst' outc,
      clientInvokeServer (V := V) (some inst) route t w args none = .ok (inst', outc) ∧
      outc.result = none ∧ 1 ≤ outc.iters ∧
      w ≤ (outc.iters : ℚ) / 10 ∧ ((outc.iters : ℚ) - 1) / 10 < w ∧
      outc.detached = true) ∧
    (∀ (V : Type) (arrival : Option (Nat × Option V)), ∃ inst' outc,
      clientInvokeServer (some inst) route t w args arrival = .ok (inst', outc) ∧
      outc.detached = true) := by
  constructor
  · intro V
    obtain ⟨h1, h2, h3, h4⟩ :=
      pollLoop_none_spec (V := V) w none (fun _ => rfl) hw
    exact ⟨_, _, clientInvokeServer_ok inst route t w args none ri hri hfn hcd,
      h1, h4, h2, h3, rfl⟩
  · intro V arrival
    exact ⟨_, _, clientInvokeServer_ok inst route t w args arrival ri hri hfn hcd, rfl⟩

/-- Witness for C8: a client whose table holds a request-response route with
cooldown 1 and an empty log; `InvokeServer` with `waitTime = 0.2` and no reply
returns the undefined sentinel after the full wait with the listener
detached. -/
theorem c8_witness :
    ∃ inst' outc,
      clientInvokeServer (V := Unit)
        (some ⟨[("root/additions", ⟨3, true, .function, some 1⟩)], [], []⟩)
        "root/additions" 0 (1 / 5) [] none = .ok (inst', outc) ∧
      outc.result = none ∧ 1 ≤ outc.iters ∧
      (1 / 5 : ℚ) ≤ (outc.iters : ℚ) / 10 ∧ ((outc.iters : ℚ) - 1) / 10 < 1 / 5 ∧
      outc.detached = true :=
  (c8_invoke_timeout ⟨[("root/additions", ⟨3, true, .function, some 1⟩)], [], []⟩
    "root/additions" 0 (1 / 5) [] ⟨3, true, .function, some 1⟩
    rfl rfl rfl (by norm_num)).1 Unit

/-! ### C10: an undefined reply is indistinguishable from a timeout -/

/-- C10: The peer-side `InvokeServer` cannot distinguish a server handler that
replies with the undefined value from a timeout: an `InvokeServer` run whose
captured message carries the undefined value is *identical* to a run in which
no message arrives at all (the polling loop treats the captured undefined
`result` as "no reply yet"), so (under the usual guards) it blocks for the
full `waitTime` and returns the undefined sentinel.  On the host side, the
`OnInvoke` listener does send such a reply when the handler returns the
undefined value. -/
theorem c10_undefined_reply :
    (∀ (V : Type) (s : Option ClientNetwork) (route : String) (t w : ℚ)
        (args : List Int) (k : Nat),
      clientInvokeServer s route t w args (some (k, (none : Option V))) =
        clientInvokeServer s route t w args none) ∧
    (∀ (V : Type) (inst : ClientNetwork) (route : String) (t w : ℚ) (args : List Int)
        (k : Nat) (ri : SimpleRouteInfo),
      inst.routingTable.lookup route = some ri → ri.remoteType = .function →
      cooldownTripped inst route ri t = false → 0 < w →
      ∃ inst' outc,
        clientInvokeServer (some inst) route t w args (some (k, (none : Option V))) =
          .ok (inst', outc) ∧
        outc.result = none ∧ w ≤ (outc.iters : ℚ) / 10) ∧
    (∀ (V : Type) (st : ServerState) (route : Route) (p : Nat) (t : ℚ) (args : List Int),
      route.middleware = none →
      onInvokeMessage st route (fun _ _ => .ok (none : Option V)) p t args =
        .ok (st, some (p, none))) := by
  have hmain : ∀ (V : Type) (s : Option ClientNetwork) (route : String) (t w : ℚ)
      (args : List Int) (k : Nat),
      clientInvokeServer s route t w args (some (k, (none : Option V))) =
        clientInvokeServer s route t w args none := by
    intro V s route t w args k
    cases s with
    | none => rfl
    | some inst =>
      simp only [clientInvokeServer]
      rw [pollLoop_undef_eq]
  refine ⟨hmain, ?_, ?_⟩
  · intro V inst route t w args k ri hri hfn hcd hw
    rw [hmain]
    obtain ⟨h1, h2, _, _⟩ := pollLoop_none_spec (V := V) w none (fun _ => rfl) hw
    exact ⟨_, _, clientInvokeServer_ok inst route t w args none ri hri hfn hcd, h1, h2⟩
  · intro V st route p t args hmw
    simp [onInvokeMessage, hmw]

/-- Witness for C10: a reply carrying the undefined value arrives after one
iteration; the call still returns the undefined sentinel only after the full
0.2-second wait. -/
theorem c10_witness :
    ∃ inst' outc,
      clientInvokeServer
        (some ⟨[("root/additions", ⟨3, true, .function, some 1⟩)], [], []⟩)
        "root/additions" 0 (1 / 5) [] (some (1, (none : Option Int))) = .ok (inst', outc) ∧
      outc.result = none ∧ (1 / 5 : ℚ) ≤ (outc.iters : ℚ) / 10 :=
  c10_undefined_reply.2.1 Int
    ⟨[("root/additions", ⟨3, true, .function, some 1⟩)], [], []⟩
    "root/additions" 0 (1 / 5) [] 1 ⟨3, true, .function, some 1⟩
    rfl rfl rfl (by norm_num)

/-- Witness for C6: the instantiation at call kind `"function"` and no
middleware. -/
theorem c6_witness :
    ∃ st1 st2 st3 nodeB oldA newA,
      NewRoute startState "root"
        { endPoint := "a", secure := true, remoteType := .event, middleware := none } = .ok st1 ∧
      NewRoute st1 "root/a"
        { endPoint := "b", secure := true, remoteType := .event, middleware := none } = .ok st2 ∧
      EditRoute st2 "root"
        { endPoint := "a", secure := true, remoteType := .function, middleware := none } =
        .ok (st3, none) ∧
      traverseGet st2.tree "root/a/b" = .ok nodeB ∧
      traverseGet st3.tree "root/a/b" = .ok nodeB ∧
      traverseGet st2.tree "root/a" = .ok oldA ∧
      traverseGet st3.tree "root/a" = .ok newA ∧
      newA.children = oldA.children ∧
      newA.value.remoteType = .function :=
  c6_edit_preserves_descendants .function none

/-! ### Helper lemmas: path strings -/

theorem str_eq_of_data (a b : String) (h : a.data = b.data) : a = b := by
  cases a; cases b; exact congrArg String.mk h

theorem str_ne_empty (s : String) (h : s.data ≠ []) : s ≠ "" := by
  intro he
  rw [he] at h
  exact h rfl

theorem splitChars_ne_nil : ∀ cs : List Char, splitChars cs ≠ [] := by
  intro cs
  cases cs with
  | nil => simp [splitChars]
  | cons c rest =>
    simp only [splitChars]
    rcases h : splitChars rest with _ | ⟨g, gs⟩
    · simp
    · by_cases hc : c = '/' <;> simp [hc]

theorem splitChars_no_slash : ∀ cs : List Char, '/' ∉ cs → splitChars cs = [cs] := by
  intro cs
  induction cs with
  | nil => intro _; rfl
  | cons c rest ih =>
    intro h
    have hc : c ≠ '/' := fun he => h (he ▸ List.mem_cons_self c rest)
    have hr : '/' ∉ rest := fun hm => h (List.mem_cons_of_mem c hm)
    simp only [splitChars, ih hr]
    rw [if_neg hc]

theorem splitChars_append : ∀ a b : List Char,
    splitChars (a ++ '/' :: b) = splitChars a ++ splitChars b := by
  intro a b
  induction a with
  | nil =>
    show splitChars ([] ++ '/' :: b) = splitChars [] ++ splitChars b
    simp only [List.nil_append, splitChars]
    rcases h : splitChars b with _ | ⟨g, gs⟩
    · exact absurd h (splitChars_ne_nil b)
    · rfl
  | cons c rest ih =>
    show splitChars (c :: (rest ++ '/' :: b)) = splitChars (c :: rest) ++ splitChars b
    simp only [splitChars]
    rw [ih]
    rcases h : splitChars rest with _ | ⟨g, gs⟩
    · exact absurd h (splitChars_ne_nil rest)
    · by_cases hc : c = '/' <;> simp [hc]

theorem joinSlash_cons (x : String) (xs : List String) (h : xs ≠ []) :
    joinSlash (x :: xs) = x ++ "/" ++ joinSlash xs := by
  cases xs with
  | nil => exact absurd rfl h
  | cons y rest => rfl

theorem splitSlash_join : ∀ names : List String, names ≠ [] →
    (∀ s ∈ names, slashFree s) → splitSlash (joinSlash names) = names := by
  intro names
  induction names with
  | nil => intro h; exact absurd rfl h
  | cons x xs ih =>
    intro _ hs
    cases xs with
    | nil =>
      show splitSlash (joinSlash [x]) = [x]
      simp only [joinSlash, splitSlash]
      rw [splitChars_no_slash x.data (hs x (List.mem_cons_self x []))]
      simp only [List.map]
    | cons y rest =>
      rw [joinSlash_cons x (y :: rest) (by simp)]
      have hdata : (x ++ "/" ++ joinSlash (y :: rest)).data =
          x.data ++ '/' :: (joinSlash (y :: rest)).data := by
        rw [String.data_append, String.data_append]
        simp
      simp only [splitSlash, hdata, splitChars_append]
      rw [List.map_append]
      rw [splitChars_no_slash x.data (hs x (List.mem_cons_self x (y :: rest)))]
      have hrest : splitSlash (joinSlash (y :: rest)) = y :: rest :=
        ih (by simp) (fun s hm => hs s (List.mem_cons_of_mem x hm))
      simp only [splitSlash] at hrest
      rw [hrest]
      simp only [List.map]
      rw [show (⟨x.data⟩ : String) = x from str_eq_of_data _ _ rfl]
      rfl

theorem joinSlash_inj (l1 l2 : List String) (h1 : l1 ≠ []) (h2 : l2 ≠ [])
    (hs1 : ∀ s ∈ l1, slashFree s) (hs2 : ∀ s ∈ l2, slashFree s)
    (he : joinSlash l1 = joinSlash l2) : l1 = l2 := by
  have := congrArg splitSlash he
  rwa [splitSlash_join l1 h1 hs1, splitSlash_join l2 h2 hs2] at this

theorem lowerStr_append (a b : String) : lowerStr (a ++ b) = lowerStr a ++ lowerStr b := by
  apply str_eq_of_data
  show ((a ++ b).data.map Char.toLower) = (lowerStr a ++ lowerStr b).data
  rw [String.data_append, List.map_append, String.data_append]
  rfl

theorem lowerStr_join : ∀ names : List String, (∀ s ∈ names, lowerStr s = s) →
    lowerStr (joinSlash names) = joinSlash names := by
  intro names
  induction names with
  | nil => intro _; rfl
  | cons x xs ih =>
    intro hs
    cases xs with
    | nil => exact hs x (List.mem_cons_self x [])
    | cons y rest =>
      rw [joinSlash_cons x (y :: rest) (by simp), lowerStr_append, lowerStr_append]
      rw [hs x (List.mem_cons_self x (y :: rest))]
      rw [ih (fun s hm => hs s (List.mem_cons_of_mem x hm))]
      rfl

theorem joinSlash_append_singleton (l : List String) (x : String) (h : l ≠ []) :
    joinSlash (l ++ [x]) = joinSlash l ++ "/" ++ x := by
  induction l with
  | nil => exact absurd rfl h
  | cons a as ih =>
    cases as with
    | nil => rfl
    | cons b bs =>
      rw [List.cons_append, joinSlash_cons a ((b :: bs) ++ [x]) (by simp),
        joinSlash_cons a (b :: bs) (by simp), ih (by simp)]
      simp [String.append_assoc]

theorem joinSlash_snoc_ne_empty (l : List String) (x : String)
    (hx : l = [] → x ≠ "") : joinSlash (l ++ [x]) ≠ "" := by
  cases l with
  | nil => exact hx rfl
  | cons a as =>
    rw [joinSlash_append_singleton (a :: as) x (by simp)]
    apply str_ne_empty
    rw [String.data_append, String.data_append]
    simp

/-! ### Helper lemmas: subtree addresses -/

theorem addrsList_mem (cs : List (String × TreeNode)) (pre : List String) :
    ∀ a ∈ addrsList cs pre, ∃ c ∈ cs, a ∈ addrsNode c.2 pre := by
  induction cs with
  | nil => intro a ha; simp [addrsList] at ha
  | cons c rest ih =>
    intro a ha
    simp only [addrsList, List.mem_append] at ha
    rcases ha with h | h
    · exact ⟨c, List.mem_cons_self c rest, h⟩
    · obtain ⟨c', hc', hm⟩ := ih a h
      exact ⟨c', List.mem_cons_of_mem c hc', hm⟩

theorem addrs_prefix : ∀ (t : TreeNode) (pre : List String),
    ∀ a ∈ addrsNode t pre, ∃ tl, a = pre ++ t.value.name :: tl := by
  intro t
  induction t using TreeNode.ind with
  | _ v cs ih =>
    intro pre a ha
    simp only [addrsNode, List.mem_cons] at ha
    rcases ha with h | h
    · exact ⟨[], by simpa [TreeNode.value] using h⟩
    · obtain ⟨c, hc, hm⟩ := addrsList_mem cs (pre ++ [v.name]) a h
      obtain ⟨tl, htl⟩ := ih c hc (pre ++ [v.name]) a hm
      exact ⟨c.2.value.name :: tl, by simpa [TreeNode.value] using htl⟩

theorem addrs_strings : ∀ (t : TreeNode), WF t →
    ∀ pre, (∀ s ∈ pre, s ≠ "" ∧ slashFree s ∧ lowerStr s = s) →
      (t.value.name ≠ "" ∧ slashFree t.value.name ∧ lowerStr t.value.name = t.value.name) →
      ∀ a ∈ addrsNode t pre, ∀ s ∈ a, s ≠ "" ∧ slashFree s ∧ lowerStr s = s := by
  intro t hwf
  induction hwf with
  | mk v cs h1 h2 h3 h4 ih =>
    intro pre hpre hname a ha s hs
    simp only [addrsNode, List.mem_cons] at ha
    have hpre' : ∀ x ∈ pre ++ [v.name], x ≠ "" ∧ slashFree x ∧ lowerStr x = x := by
      intro x hx
      rcases List.mem_append.1 hx with h | h
      · exact hpre x h
      · rcases List.mem_cons.1 h with he | he
        · subst he; simpa [TreeNode.value] using hname
        · simp at he
    rcases ha with h | h
    · exact hpre' s (h ▸ hs)
    · obtain ⟨c, hc, hm⟩ := addrsList_mem cs (pre ++ [v.name]) a h
      exact ih c hc (pre ++ [v.name]) hpre' (h3 c hc) a hm s hs

theorem addrs_ne_nil : ∀ (t : TreeNode) (pre : List String), ∀ a ∈ addrsNode t pre, a ≠ [] := by
  intro t pre a ha
  obtain ⟨tl, htl⟩ := addrs_prefix t pre a ha
  subst htl
  simp

theorem addrsNode_nodup : ∀ (t : TreeNode), WF t → ∀ pre, (addrsNode t pre).Nodup := by
  intro t hwf
  induction hwf with
  | mk v cs h1 h2 h3 h4 ih =>
    intro pre
    simp only [addrsNode]
    rw [List.nodup_cons]
    constructor
    · intro hmem
      obtain ⟨c, hc, hm⟩ := addrsList_mem cs (pre ++ [v.name]) _ hmem
      obtain ⟨tl, htl⟩ := addrs_prefix c.2 (pre ++ [v.name]) _ hm
      have := congrArg List.length htl
      simp at this
    · -- the concatenated child address lists are pairwise disjoint
      have key : ∀ (l : List (String × TreeNode)),
          (∀ c ∈ l, c.1 = c.2.value.name) → (l.map Prod.fst).Nodup →
          (∀ c ∈ l, ∀ q, (addrsNode c.2 q).Nodup) →
          (addrsList l (pre ++ [v.name])).Nodup := by
        intro l
        induction l with
        | nil => intro _ _ _; simp [addrsList]
        | cons c rest ihl =>
          intro hk hnd hnod
          have hnd2 : c.1 ∉ rest.map Prod.fst ∧ (rest.map Prod.fst).Nodup :=
            List.nodup_cons.1 (by simpa using hnd)
          simp only [addrsList]
          rw [List.nodup_append]
          refine ⟨hnod c (List.mem_cons_self c rest) _, ?_, ?_⟩
          · exact ihl (fun d hd => hk d (List.mem_cons_of_mem c hd)) hnd2.2
              (fun d hd => hnod d (List.mem_cons_of_mem c hd))
          · intro a ha hb
            obtain ⟨c', hc', hm'⟩ := addrsList_mem rest (pre ++ [v.name]) a hb
            obtain ⟨tl1, h1'⟩ := addrs_prefix c.2 (pre ++ [v.name]) a ha
            obtain ⟨tl2, h2'⟩ := addrs_prefix c'.2 (pre ++ [v.name]) a hm'
            rw [h2'] at h1'
            have hnames : c.2.value.name = c'.2.value.name := by
              have := List.append_cancel_left h1'.symm
              exact (List.cons.injEq .. ▸ this).1
            have hkeys : c.1 ≠ c'.1 := by
              intro he
              exact hnd2.1 (he ▸ List.mem_map.2 ⟨c', hc', rfl⟩)
            exact hkeys (by rw [hk c (List.mem_cons_self c rest),
              hk c' (List.mem_cons_of_mem c hc'), hnames])
      exact key cs h1 h2 (fun c hc q => ih c hc q)

/-! ### Helper lemmas: keys and size of the flattened table -/

theorem specNode_keys (store : MwStore) :
    ∀ (t : TreeNode), WF t → t.value.name ≠ "" →
      ∀ pre : List String, (pre = [] ∨ joinSlash pre ≠ "") →
        (specNode store t (joinSlash pre)).map Prod.fst =
          (addrsNode t pre).map joinSlash := by
  intro t hwf
  induction hwf with
  | mk v cs h1 h2 h3 h4 ih =>
    intro hname pre hpre
    have hfp : (if (joinSlash pre == "") = true then
          (TreeNode.mk v cs).value.name
        else joinSlash pre ++ "/" ++ (TreeNode.mk v cs).value.name) =
        joinSlash (pre ++ [(TreeNode.mk v cs).value.name]) := by
      rcases hpre with he | hne
      · subst he
        simp [joinSlash]
      · have hprene : pre ≠ [] := by
          intro he
          subst he
          exact hne rfl
        rw [if_neg (by simpa using hne),
          joinSlash_append_singleton pre _ hprene]
    simp only [TreeNode.value] at hfp
    simp only [specNode, addrsNode, List.map_cons]
    rw [hfp]
    have hpre' : joinSlash (pre ++ [v.name]) ≠ "" :=
      joinSlash_snoc_ne_empty pre v.name (fun _ => by simpa [TreeNode.value] using hname)
    have key : ∀ (l : List (String × TreeNode)), (∀ c ∈ l, c ∈ cs) →
        (specList store l (joinSlash (pre ++ [v.name]))).map Prod.fst =
          (addrsList l (pre ++ [v.name])).map joinSlash := by
      intro l
      induction l with
      | nil => intro _; rfl
      | cons c rest ihl =>
        intro hsub
        simp only [specList, addrsList, List.map_append]
        rw [ihl (fun d hd => hsub d (List.mem_cons_of_mem c hd))]
        have hc := hsub c (List.mem_cons_self c rest)
        rw [ih c hc (h3 c hc).1 (pre ++ [v.name]) (Or.inr hpre')]
    rw [key cs (fun d hd => hd)]

theorem specNode_length (store : MwStore) :
    ∀ (t : TreeNode) (path : String), (specNode store t path).length = countNodes t := by
  intro t
  induction t using TreeNode.ind with
  | _ v cs ih =>
    intro path
    simp only [specNode, countNodes, List.length_cons]
    have key : ∀ (l : List (String × TreeNode)) (q : String), (∀ c ∈ l, c ∈ cs) →
        (specList store l q).length = countList l := by
      intro l
      induction l with
      | nil => intro _ _; rfl
      | cons c rest ihl =>
        intro q hsub
        simp only [specList, countList, List.length_append]
        rw [ihl q (fun d hd => hsub d (List.mem_cons_of_mem c hd)),
          ih c (hsub c (List.mem_cons_self c rest)) q]
    rw [key cs _ (fun d hd => hd)]
    omega

theorem dfs_append (store : MwStore) :
    ∀ (t : TreeNode) (path : String) (tbl : List (String × SimpleRouteInfo)),
      ((specNode store t path).map Prod.fst).Nodup →
      (∀ k ∈ (specNode store t path).map Prod.fst, k ∉ tbl.map Prod.fst) →
      depthFirstSearch store t path tbl = tbl ++ specNode store t path := by
  intro t
  induction t using TreeNode.ind with
  | _ v cs ih =>
    intro path tbl hnd hdisj
    simp only [specNode, List.map_cons, List.nodup_cons] at hnd
    simp only [specNode, List.map_cons, List.mem_cons] at hdisj
    simp only [depthFirstSearch, specNode]
    rw [aset_of_not_mem_keys tbl _ _ (hdisj _ (Or.inl rfl))]
    have key : ∀ (l : List (String × TreeNode)), (∀ c ∈ l, c ∈ cs) →
        ∀ (tbl' : List (String × SimpleRouteInfo)) (q : String),
          ((specList store l q).map Prod.fst).Nodup →
          (∀ k ∈ (specList store l q).map Prod.fst, k ∉ tbl'.map Prod.fst) →
          dfsChildren store l q tbl' = tbl' ++ specList store l q := by
      intro l
      induction l with
      | nil => intro _ tbl' q _ _; simp [dfsChildren, specList]
      | cons c rest ihl =>
        intro hsub tbl' q hnd' hdisj'
        simp only [specList, List.map_append, List.nodup_append] at hnd'
        obtain ⟨hnd1, hnd2, hdisj12⟩ := hnd'
        simp only [specList, List.map_append, List.mem_append] at hdisj'
        simp only [dfsChildren, specList]
        rw [ih c (hsub c (List.mem_cons_self c rest)) q tbl' hnd1
          (fun k hk => hdisj' k (Or.inl hk))]
        have hfresh : ∀ k ∈ (specList store rest q).map Prod.fst,
            k ∉ (tbl' ++ specNode store c.2 q).map Prod.fst := by
          intro k hk
          rw [List.map_append, List.mem_append]
          rintro (h | h)
          · exact hdisj' k (Or.inr hk) h
          · exact hdisj12 h hk
        rw [ihl (fun d hd => hsub d (List.mem_cons_of_mem c hd))
          (tbl' ++ specNode store c.2 q) q hnd2 hfresh]
        rw [List.append_assoc]
    rw [key cs (fun d hd => hd) _ _ hnd.2 ?fresh]
    · simp
    case fresh =>
      intro k hk
      rw [List.map_append, List.mem_append]
      rintro (h | h)
      · exact hdisj k (Or.inr hk) h
      · simp only [List.map_cons, List.map_nil, List.mem_singleton] at h
        subst h
        exact hnd.1 hk

theorem specList_mem (store : MwStore) (cs : List (String × TreeNode)) (q : String) :
    ∀ kv ∈ specList store cs q, ∃ c ∈ cs, kv ∈ specNode store c.2 q := by
  induction cs with
  | nil => intro kv hkv; simp [specList] at hkv
  | cons c rest ih =>
    intro kv hkv
    simp only [specList, List.mem_append] at hkv
    rcases hkv with h | h
    · exact ⟨c, List.mem_cons_self c rest, h⟩
    · obtain ⟨c', hc', hm⟩ := ih kv h
      exact ⟨c', List.mem_cons_of_mem c hc', hm⟩

theorem fullPath_eq (pre : List String) (name : String) (hname : name ≠ "")
    (hpre : pre = [] ∨ joinSlash pre ≠ "") :
    (if (joinSlash pre == "") = true then name else joinSlash pre ++ "/" ++ name) =
      joinSlash (pre ++ [name]) := by
  rcases hpre with he | hne
  · subst he
    simp [joinSlash]
  · have hprene : pre ≠ [] := by
      intro he
      subst he
      exact hne rfl
    rw [if_neg (by simpa using hne), joinSlash_append_singleton pre _ hprene]

theorem specNode_resolves (store : MwStore) :
    ∀ (t : TreeNode), WF t →
      ∀ pre : List String, (pre = [] ∨ joinSlash pre ≠ "") →
        t.value.name ≠ "" →
        ∀ kv ∈ specNode store t (joinSlash pre),
          ∃ (segs : List String) (target : TreeNode),
            kv.1 = joinSlash (pre ++ t.value.name :: segs) ∧
            (∀ s ∈ segs, s ≠ "" ∧ slashFree s ∧ lowerStr s = s) ∧
            (∀ p : String, goGet t segs p = .ok target) ∧
            kv.2 = mkInfo store target.value := by
  intro t hwf
  induction hwf with
  | mk v cs h1 h2 h3 h4 ih =>
    intro pre hpre hname kv hkv
    simp only [TreeNode.value] at hname ⊢
    have hfp : (if (joinSlash pre == "") = true then v.name
        else joinSlash pre ++ "/" ++ v.name) = joinSlash (pre ++ [v.name]) :=
      fullPath_eq pre v.name hname hpre
    simp only [specNode, List.mem_cons] at hkv
    rw [hfp] at hkv
    rcases hkv with h | h
    · refine ⟨[], .mk v cs, ?_, ?_, ?_, ?_⟩
      · rw [h]
      · intro s hs; simp at hs
      · intro p; rfl
      · rw [h]
    · obtain ⟨c, hc, hm⟩ := specList_mem store cs _ kv h
      have hpre' : pre ++ [v.name] = [] ∨ joinSlash (pre ++ [v.name]) ≠ "" :=
        Or.inr (joinSlash_snoc_ne_empty pre v.name (fun _ => hname))
      obtain ⟨segs', target, hkey, hsegs, hwalk, hinfo⟩ :=
        ih c hc (pre ++ [v.name]) hpre' (h3 c hc).1 kv hm
      refine ⟨c.2.value.name :: segs', target, ?_, ?_, ?_, hinfo⟩
      · rw [hkey, List.append_assoc]
        rfl
      · intro s hs
        rcases List.mem_cons.1 hs with he | he
        · subst he; exact h3 c hc
        · exact hsegs s he
      · intro p
        simp only [goGet, TreeNode.getChild, TreeNode.children]
        have hmem : (c.2.value.name, c.2) ∈ cs := by
          have := h1 c hc
          rw [← this]
          exact hc
        rw [lookup_of_mem_nodup cs c.2.value.name c.2 hmem h2]
        exact hwalk p

/-! ### C7: flatten size and resolvability -/

/-- C7 (amended): For a well-formed tree — children keyed by their route's
name, distinct sibling keys, and route names nonempty, `/`-free and
lower-case, with the root named `"root"` — `depthFirstSearch` from the root
produces a table with exactly `countNodes` entries, and every key it produces
is resolvable by `traversePath`, reaching the route whose data the entry
carries.  (As stated over all trees the registry can hold, the claim fails:
`NewRoute` does not normalize endpoint names, and a key containing an
upper-case name is *not* resolvable — see the counterexample.) -/
theorem c7_flatten_wf (store : MwStore) (tree : TreeNode)
    (hwf : WF tree) (hroot : tree.value.name = "root") :
    (depthFirstSearch store tree "" []).length = countNodes tree ∧
    (∀ kv ∈ depthFirstSearch store tree "" [], ∃ node : TreeNode,
      traverseGet tree kv.1 = .ok node ∧ kv.2 = mkInfo store node.value) := by
  have hname : tree.value.name ≠ "" := by rw [hroot]; decide
  have hnwf : tree.value.name ≠ "" ∧ slashFree tree.value.name ∧
      lowerStr tree.value.name = tree.value.name := by
    rw [hroot]
    exact ⟨by decide, by decide, by decide⟩
  have hkeys : (specNode store tree "").map Prod.fst =
      (addrsNode tree []).map joinSlash :=
    specNode_keys store tree hwf hname [] (Or.inl rfl)
  have hstrs : ∀ a ∈ addrsNode tree [], ∀ s ∈ a, s ≠ "" ∧ slashFree s ∧ lowerStr s = s :=
    addrs_strings tree hwf [] (by intro s hs; simp at hs) hnwf
  have hnd : ((specNode store tree "").map Prod.fst).Nodup := by
    rw [hkeys]
    refine List.Nodup.map_on ?_ (addrsNode_nodup tree hwf [])
    intro x hx y hy hxy
    exact joinSlash_inj x y (addrs_ne_nil tree [] x hx) (addrs_ne_nil tree [] y hy)
      (fun s hs => (hstrs x hx s hs).2.1) (fun s hs => (hstrs y hy s hs).2.1) hxy
  have htbl : depthFirstSearch store tree "" [] = specNode store tree "" := by
    have := dfs_append store tree "" [] hnd (by intro k _ hk; simp at hk)
    simpa using this
  constructor
  · rw [htbl, specNode_length]
  · rw [htbl]
    intro kv hkv
    obtain ⟨segs, target, hkey, hsegs, hwalk, hinfo⟩ :=
      specNode_resolves store tree hwf [] (Or.inl rfl) hname kv hkv
    refine ⟨target, ?_, hinfo⟩
    have hlist : kv.1 = joinSlash (tree.value.name :: segs) := by simpa using hkey
    have hall : ∀ s ∈ tree.value.name :: segs, s ≠ "" ∧ slashFree s ∧ lowerStr s = s := by
      intro s hs
      rcases List.mem_cons.1 hs with he | he
      · subst he; exact hnwf
      · exact hsegs s he
    have hlower : lowerStr kv.1 = kv.1 := by
      rw [hlist]
      exact lowerStr_join _ (fun s hs => (hall s hs).2.2)
    have hsplit : splitSlash kv.1 = "root" :: segs := by
      rw [hlist]
      rw [splitSlash_join _ (by simp) (fun s hs => (hall s hs).2.1)]
      rw [hroot]
    simp only [traverseGet]
    rw [hlower, hsplit]
    cases segs with
    | nil =>
      simp only [List.length_cons, List.length_nil, List.headD_cons]
      norm_num
      exact Except.ok.inj (hwalk "")
    | cons s1 srest =>
      simp only [List.length_cons, List.headD_cons, List.tail_cons]
      norm_num
      exact hwalk _

/-- C7 (counterexample to the claim as stated): register an endpoint named
`"Admin"` under the root (the public API accepts it and does not normalize the
name); the flattened table then contains the key `"root/Admin"`, but
`traversePath` lower-cases its input before matching children, so re-traversal
of that key fails. -/
theorem c7_counterexample :
    ∃ st', NewRoute startState "root"
        { endPoint := "Admin", secure := true, remoteType := .event, middleware := none } =
        .ok st' ∧
      (∃ info, (depthFirstSearch st'.mwStore st'.tree "" []).lookup "root/Admin" = some info) ∧
      (∃ e, traverseGet st'.tree "root/Admin" = .error e) :=
  ⟨_, rfl, ⟨_, rfl⟩, ⟨_, rfl⟩⟩

/-- Well-formedness of the default tree built by `Network.start()`. -/
theorem wf_startTree : WF startState.tree := by
  refine WF.mk _ _ ?_ ?_ ?_ ?_
  · intro c hc
    rcases List.mem_cons.1 hc with he | he
    · subst he; rfl
    · simp at he
  · simp
  · intro c hc
    rcases List.mem_cons.1 hc with he | he
    · subst he
      exact ⟨by decide, by decide, by decide⟩
    · simp at he
  · intro c hc
    rcases List.mem_cons.1 hc with he | he
    · subst he
      refine WF.mk _ _ ?_ ?_ ?_ ?_
      · intro d hd
        rcases List.mem_cons.1 hd with he' | he'
        · subst he'; rfl
        · simp at he'
      · simp
      · intro d hd
        rcases List.mem_cons.1 hd with he' | he'
        · subst he'
          exact ⟨by decide, by decide, by decide⟩
        · simp at he'
      · intro d hd
        rcases List.mem_cons.1 hd with he' | he'
        · subst he'
          exact WF.mk _ _ (by intro e he''; simp at he'') (by simp)
            (by intro e he''; simp at he'') (by intro e he''; simp at he'')
        · simp at he'
    · simp at he

/-- Witness for C7 (amended): the default tree is well-formed and its flatten
has exactly `countNodes` entries. -/
theorem c7_witness :
    (depthFirstSearch startState.mwStore startState.tree "" []).length =
      countNodes startState.tree :=
  (c7_flatten_wf startState.mwStore startState.tree wf_startTree rfl).1
